import Mathlib

/-!
Verification of the img_getter repository: a shallow embedding of the
retrying storage-access layer (`s3_server_utils.py`) and of the
size-constrained image transcoder and batch loop (`fetch_images.py`),
together with theorems settling the specified properties.

Python machine model used throughout:
- Python `str` values are embedded as `List Char`.
- Byte sizes are `Nat`; qualities and kilobyte budgets are `Int`
  (Python integers are unbounded; `argparse` values may be negative).
- `current_size_kb = os.path.getsize(p) / 1024` is an exact binary
  scaling in IEEE floats, so `size / 1024 <= max_size_kb` is embedded as
  `(size : Int) <= max_size_kb * 1024`, and
  `size / 1024 > max_size_kb + 300` as `(size : Int) > (max_size_kb + 300) * 1024`.
- Loops that the source runs unboundedly are embedded with an explicit
  fuel argument; running out of fuel returns `none` (for the remote retry
  wrapper and the bounded-time local writers) so that termination facts are
  stated as the existence of sufficient fuel.  For the compression loop the
  fuel `(start_quality - 20).toNat` is provably sufficient (see the
  fuel-stability lemma), so the top-level function is total.
- Wall-clock time for the bounded-retry local writers advances only at
  `time.sleep(delay)` calls; operation attempts are instantaneous.
-/

namespace ImgGetter

/-- Taxonomy of exceptions that can reach the `retry_s3_call` wrapper.
`clientError code` embeds `botocore.exceptions.ClientError` with the given
error code (`"404"` not-found, `"403"` permission denied, ...);
the next three embed `EndpointConnectionError`, `ConnectionClosedError`
and `ReadTimeoutError`; `otherError` embeds any exception outside the
`except` tuple of the decorator (e.g. `RuntimeError`, `OSError`). -/
inductive S3Err where
  | clientError (code : String)
  | endpointConnectionError
  | connectionClosedError
  | readTimeoutError
  | otherError (msg : String)
deriving DecidableEq, Repr

/-- The `except (ClientError, EndpointConnectionError, ConnectionClosedError,
ReadTimeoutError)` clause of `retry_s3_call` (s3_server_utils.py line 36):
which exception classes the wrapper catches and retries. -/
def isCaught : S3Err → Bool
  | .clientError _ => true
  | .endpointConnectionError => true
  | .connectionClosedError => true
  | .readTimeoutError => true
  | .otherError _ => false

/-- Whether an attempt outcome is an exception the wrapper catches. -/
def isCaughtErr {α : Type} : Except S3Err α → Bool
  | .error e => isCaught e
  | .ok _ => false

instance {ε α : Type} [DecidableEq ε] [DecidableEq α] :
    DecidableEq (Except ε α) := fun x y =>
  match x, y with
  | .ok a, .ok b =>
    if h : a = b then .isTrue (by rw [h]) else .isFalse (by simp [h])
  | .ok _, .error _ => .isFalse (by simp)
  | .error _, .ok _ => .isFalse (by simp)
  | .error e, .error e2 =>
    if h : e = e2 then .isTrue (by rw [h]) else .isFalse (by simp [h])

/-- Observable trace of one run of the wrapped callable: the final outcome,
the durations passed to `time.sleep` in order, and how many times the
wrapped function was invoked. -/
structure RetryTrace (α : Type) where
  result : Except S3Err α
  sleeps : List Nat
  calls : Nat
deriving DecidableEq, Repr

/-- `retry_s3_call` (s3_server_utils.py lines 23-46).  `f k` is the outcome
of the `(k+1)`-st invocation of the wrapped function.  The source loop is
`delay = 0; while True: try: return f(...) except (caught) : sleep(delay);
delay = min(delay + 10, 60)`; an uncaught exception propagates.  `fuel`
bounds the number of iterations modelled; `none` means the modelled run was
truncated (the source loop has no bound of its own). -/
def retry_s3_call {α : Type} (f : Nat → Except S3Err α) :
    Nat → Nat → Nat → List Nat → Option (RetryTrace α)
  | 0, _, _, _ => none
  | fuel + 1, attempt, delay, sleeps =>
    match f attempt with
    | .ok a => some ⟨.ok a, sleeps.reverse, attempt + 1⟩
    | .error e =>
      if isCaught e then
        retry_s3_call f fuel (attempt + 1) (min (delay + 10) 60) (delay :: sleeps)
      else
        some ⟨.error e, sleeps.reverse, attempt + 1⟩

/-- Entry point of the wrapper: attempt counter 0, initial delay 0, no
sleeps performed yet. -/
def retryS3 {α : Type} (f : Nat → Except S3Err α) (fuel : Nat) :
    Option (RetryTrace α) :=
  retry_s3_call f fuel 0 0 []

/-- Possible outcomes of the `head_object` probe inside `storage_exists`:
object present, `ClientError` with code `'404'`, another `ClientError`
code, or any other exception propagating out of the probe. -/
inductive HeadOutcome where
  | found
  | notFound
  | clientErr (code : String)
  | raiseErr (e : S3Err)
deriving DecidableEq, Repr

/-- `S3Connection.storage_exists` (s3_server_utils.py lines 154-170), one
undecorated invocation.  When an endpoint is configured it performs the
HEAD probe: success returns `true`, a `ClientError` with code `'404'`
returns `false`, any other `ClientError` is re-raised, any other exception
propagates.  With no endpoint configured (`S3Connection.__init__` lines
65-68 leave `S3_ENDPOINT = None`) it falls through to `return False`. -/
def storage_exists (hasEndpoint : Bool) (head : HeadOutcome) : Except S3Err Bool :=
  if hasEndpoint then
    match head with
    | .found => .ok true
    | .notFound => .ok false
    | .clientErr code => .error (.clientError code)
    | .raiseErr e => .error e
  else
    .ok false

/-- `os.path.basename` for forward-slash paths: the segment after the last
separator. -/
def pyBasenameChars (p : List Char) : List Char :=
  (p.reverse.takeWhile (fun c => c ≠ '/')).reverse

/-- The extension component of `os.path.splitext`: the part of the
basename from its last dot onward, except that a basename whose characters
before that dot are all dots (e.g. `.bashrc`, `..b`) has no extension. -/
def splitextExtChars (p : List Char) : List Char :=
  let base := pyBasenameChars p
  let afterDot := base.reverse.takeWhile (fun c => c ≠ '.')
  if afterDot.length = base.length then []
  else if (base.take (base.length - afterDot.length - 1)).any (fun c => c ≠ '.') then
    base.drop (base.length - afterDot.length - 1)
  else []

/-- The scratch path produced by `tempfile.mkstemp(dir=self.TMP_FOLDER,
prefix="s3dl_", suffix=ext or "")` in `storage_download`
(s3_server_utils.py line 219): directory, separator, the fixed `s3dl_`
part, the random part chosen by `mkstemp`, then the preserved extension
of `rel`. -/
def mkstempPath (tmpFolder rnd rel : List Char) : List Char :=
  tmpFolder ++ ['/'] ++ ['s', '3', 'd', 'l', '_'] ++ rnd ++ splitextExtChars rel

/-- `S3Connection.remove_tempfile` (s3_server_utils.py lines 198-208) acting
on the set of files, embedded as a list of paths: if the path exists,
`os.remove` is attempted; `removeOk` tells whether that attempt succeeds,
and on an `OSError` (lines 205-208) the failure is logged and swallowed,
leaving the file in place. -/
def remove_tempfile (removeOk : Bool) (fs : List (List Char)) (p : List Char) :
    List (List Char) :=
  if p ∈ fs then
    if removeOk then fs.filter (fun q => q ≠ p) else fs
  else fs

/-- `S3Connection.storage_download` (s3_server_utils.py lines 210-227), one
undecorated invocation.  `rnd` is the random part `mkstemp` picks,
`transferOk` tells whether `download_file` succeeds, `removeOk` whether
the cleanup's `os.remove` succeeds, `fs` is the set of files in
existence.  `mkstemp` creates the (empty) scratch file; on transfer
success the path is returned with the file in place; on failure
`remove_tempfile` attempts to delete it and the exception is re-raised
regardless of the cleanup's outcome. -/
def storage_download (tmpFolder rel rnd : List Char) (transferOk removeOk : Bool)
    (fs : List (List Char)) : Except Unit (List Char) × List (List Char) :=
  let tmp := mkstempPath tmpFolder rnd rel
  let fs1 := tmp :: fs
  if transferOk then (.ok tmp, fs1)
  else (.error (), remove_tempfile removeOk fs1 tmp)

/-- Python slicing `s[a:b]` on a string (clamping, as in Python). -/
def pySliceC (s : List Char) (a b : Nat) : List Char :=
  (s.take b).drop a

/-- Python `str.lstrip("/")`. -/
def lstripSlashC (s : List Char) : List Char :=
  s.dropWhile (fun c => c = '/')

/-- The literal path segment `originals`. -/
def originalsSeg : List Char := ['o', 'r', 'i', 'g', 'i', 'n', 'a', 'l', 's']

/-- The sharded relative key built by the batch loop (fetch_images.py lines
219-220): `f"{collection}{os.sep}originals{os.sep}{rel[0:2]}{os.sep}{rel[2:4]}{os.sep}{rel}"`,
with `os.sep` passed in as `sep`. -/
def rel_key_for (sep collection rel : List Char) : List Char :=
  collection ++ sep ++ originalsSeg ++ sep ++
    pySliceC rel 0 2 ++ sep ++ pySliceC rel 2 4 ++ sep ++ rel

/-- The full remote key probed by `storage_exists` and `storage_download`
(s3_server_utils.py lines 160, 217): `f"{self.S3_PREFIX}/{rel}".lstrip("/")`,
with the configured key namespace passed in as `pfx`. -/
def full_key_for (pfx relKey : List Char) : List Char :=
  lstripSlashC (pfx ++ ['/'] ++ relKey)

/-- Result of one call to `compress_image_quality` (fetch_images.py lines
105-184): the qualities encoded to the scratch file in order, the quality
whose encoding the destination holds afterwards (`none` if the destination
is absent, assuming it was absent before the call), how many
`copy_with_retry` invocations were made, and whether the call returned
from inside the loop (size budget met) rather than through the
quality-floor fallthrough. -/
structure CompressResult where
  attempts : List Int
  dest : Option Int
  copyCalls : Nat
  returnedEarly : Bool
deriving DecidableEq, Repr

/-- The `while img_quality > 20` loop of `compress_image_quality`
(fetch_images.py lines 123-184) plus the best-effort fallthrough.
`enc q` is the byte size `image.save` produces at quality `q`;
`copyOk` tells whether `copy_with_retry` to the destination succeeds
(it fails in particular when no encode ever ran, since the scratch file
then does not exist - hence `acc.getLast?`, which is `none` on `[]`).
The fuel-0 case coincides with the loop guard being false; the fuel
`(q - 20).toNat` used by `compress_image_quality` is provably sufficient. -/
def compressGo (enc : Int → Nat) (maxKb : Int) (copyOk : Bool) :
    Nat → Int → List Int → CompressResult
  | 0, _, acc =>
    { attempts := acc, dest := if copyOk then acc.getLast? else none,
      copyCalls := 1, returnedEarly := false }
  | fuel + 1, q, acc =>
    if 20 < q then
      if (enc q : Int) ≤ maxKb * 1024 then
        { attempts := acc ++ [q], dest := if copyOk then some q else none,
          copyCalls := 1, returnedEarly := true }
      else
        compressGo enc maxKb copyOk fuel
          (if (enc q : Int) > (maxKb + 300) * 1024 then q - 5 else q - 1)
          (acc ++ [q])
    else
      { attempts := acc, dest := if copyOk then acc.getLast? else none,
        copyCalls := 1, returnedEarly := false }

/-- `compress_image_quality` (fetch_images.py lines 105-184): run the loop
from `start_quality` with an empty attempt history. -/
def compress_image_quality (enc : Int → Nat) (maxKb : Int) (copyOk : Bool)
    (start_quality : Int) : CompressResult :=
  compressGo enc maxKb copyOk (start_quality - 20).toNat start_quality []

/-- `copy_with_retry` (fetch_images.py lines 31-65).  `op a` tells whether
the `a`-th attempt of `shutil.copyfile`/`shutil.copy` succeeds; `t` is the
elapsed wall-clock time (attempts are instantaneous, `time.sleep(delay)`
advances the clock by `delay`); `attempt` is the source's attempt counter,
starting at 1.  Returns `(result, elapsed, attempts made)`; `none` models
a run longer than the given fuel. -/
def copy_with_retry (op : Nat → Bool) (delay maxTotalWait : Nat) :
    Nat → Nat → Nat → Option (Bool × Nat × Nat)
  | 0, _, _ => none
  | fuel + 1, t, attempt =>
    if op attempt then
      some (true, t, attempt)
    else if maxTotalWait ≤ t then
      some (false, t, attempt)
    else
      copy_with_retry op delay maxTotalWait fuel (t + delay) (attempt + 1)

/-- `save_image_with_retry` (fetch_images.py lines 68-102): identical retry
structure to `copy_with_retry`, with `op` now telling whether the `a`-th
`image.save(output_file_path, ...)` attempt succeeds. -/
def save_image_with_retry (op : Nat → Bool) (delay maxTotalWait : Nat) :
    Nat → Nat → Nat → Option (Bool × Nat × Nat)
  | 0, _, _ => none
  | fuel + 1, t, attempt =>
    if op attempt then
      some (true, t, attempt)
    else if maxTotalWait ≤ t then
      some (false, t, attempt)
    else
      save_image_with_retry op delay maxTotalWait fuel (t + delay) (attempt + 1)

/-- Abstract per-key environment for one iteration of the batch loop in
`download_image_list` (fetch_images.py lines 218-299): whether
`storage_exists` finds the key, whether `storage_download` returns without
raising, the result of `skip_existing_file`, whether opening/processing
the image runs without raising, and whether the final destination write
(`copy_with_retry` / `save_image_with_retry` / the copies inside
`compress_image_quality`) succeeds. -/
structure ItemEnv where
  existsRemote : Bool
  downloadOk : Bool
  skipExisting : Bool
  openOk : Bool
  writeOk : Bool
deriving DecidableEq, Repr

/-- The configuration of a batch run that the loop body branches on. -/
structure BatchCfg where
  outputFolder : List Char
  maxSizeKb : Option Int
  resizeTo : Option (Int × Int)
deriving DecidableEq, Repr

/-- One iteration of the `for rel in rel_paths` loop of
`download_image_list` (fetch_images.py lines 218-299), returning the entry
this key contributes to `downloaded_files` (or `none`).  Mirrors the
source control flow: not found → `continue`; exception from the download →
caught, no entry; skip-existing → `continue`; download-only branch →
entry exactly when `copy_with_retry` returned True; otherwise an exception
while processing → caught, no entry; otherwise the path is appended
unconditionally (line 296) regardless of whether the destination write
inside the branch succeeded. -/
def processOne (cfg : BatchCfg) (env : ItemEnv) (rel : List Char) :
    Option (List Char) :=
  if env.existsRemote = false then none
  else if env.downloadOk = false then none
  else
    let outPath := cfg.outputFolder ++ ['/'] ++ pyBasenameChars rel
    if env.skipExisting then none
    else if cfg.maxSizeKb = none ∧ cfg.resizeTo = none then
      if env.writeOk then some outPath else none
    else if env.openOk = false then none
    else some outPath

/-- `download_image_list` (fetch_images.py lines 187-301): iterate the keys
in order, collecting the entries appended to `downloaded_files`. -/
def download_image_list (cfg : BatchCfg) (env : List Char → ItemEnv)
    (rel_paths : List (List Char)) : List (List Char) :=
  rel_paths.filterMap (fun rel => processOne cfg (env rel) rel)

/-- Attempt pattern for the C1 counterexample: the first invocation raises
a permission-denied `ClientError` (code 403), the second succeeds. -/
def deniedThenOk : Nat → Except S3Err Nat :=
  fun n => if n = 0 then .error (.clientError "403") else .ok 42

/-- Attempt pattern whose every invocation raises an exception outside the
caught tuple. -/
def alwaysOther : Nat → Except S3Err Nat :=
  fun _ => .error (.otherError "boom")

/-- Attempt pattern: one caught read-timeout, then success. -/
def timeoutThenOk : Nat → Except S3Err Nat :=
  fun n => if n = 0 then .error .readTimeoutError else .ok 1

/-- Attempt pattern for the C6 witness: two caught transient failures, then
success. -/
def twoTimeoutsThenOk : Nat → Except S3Err Nat :=
  fun n => if n < 2 then .error .readTimeoutError else .ok 7

/-- An encoder whose output is 512000 bytes (500 binary KB) at every
quality: no quality meets a 200 KB budget. -/
def enc500 : Int → Nat := fun _ => 512000

/-- An encoder whose output is 102400 bytes (100 binary KB) at every
quality: the first quality already meets a 200 KB budget. -/
def enc100 : Int → Nat := fun _ => 102400

/-- A destination write that fails on every attempt. -/
def alwaysFailOp : Nat → Bool := fun _ => false

/-- Any outcome the retry wrapper returns was produced at or after the
attempt counter it started from: the call count is strictly above the
starting counter. -/
theorem retry_calls_ge {α : Type} (f : Nat → Except S3Err α) :
    ∀ fuel attempt delay sleeps r,
      retry_s3_call f fuel attempt delay sleeps = some r → attempt + 1 ≤ r.calls := by
  intro fuel
  induction fuel with
  | zero =>
    intro a d s r h
    simp [retry_s3_call] at h
  | succ n ih =>
    intro a d s r h
    rw [retry_s3_call] at h
    cases hf : f a with
    | ok v =>
      rw [hf] at h
      simp only [Option.some.injEq] at h
      subst h
      exact Nat.le_refl _
    | error e =>
      rw [hf] at h
      by_cases hc : isCaught e
      · simp only [hc, if_true] at h
        have := ih (a + 1) _ _ r h
        omega
      · simp only [if_neg hc, Option.some.injEq] at h
        subst h
        exact Nat.le_refl _

/-- Backoff schedule of the wrapper: starting from attempt counter `j`
with the delay and sleep history that `j` prior caught failures produce,
`N` further caught failures followed by a success return the success value
with the full capped-backoff sleep schedule. -/
theorem retry_succeeds_after {α : Type} (f : Nat → Except S3Err α) (v : α) :
    ∀ N j, (∀ k, k < N → isCaughtErr (f (j + k)) = true) → f (j + N) = .ok v →
      retry_s3_call f (N + 1) j (min (10 * j) 60)
        (((List.range j).map (fun k => min (10 * k) 60)).reverse) =
      some ⟨.ok v, (List.range (j + N)).map (fun k => min (10 * k) 60), j + N + 1⟩ := by
  intro N
  induction N with
  | zero =>
    intro j hfail hok
    rw [retry_s3_call]
    simp only [Nat.add_zero] at hok
    rw [hok]
    simp
  | succ n ih =>
    intro j hfail hok
    have hj : isCaughtErr (f j) = true := by
      simpa using hfail 0 (Nat.succ_pos n)
    rw [retry_s3_call]
    cases hfj : f j with
    | ok w =>
      rw [hfj] at hj
      simp [isCaughtErr] at hj
    | error e =>
      rw [hfj] at hj
      simp only [isCaughtErr] at hj
      simp only [hj, if_true]
      have hdelay : min (min (10 * j) 60 + 10) 60 = min (10 * (j + 1)) 60 := by
        omega
      have hsleeps :
          min (10 * j) 60 :: ((List.range j).map (fun k => min (10 * k) 60)).reverse =
            ((List.range (j + 1)).map (fun k => min (10 * k) 60)).reverse := by
        rw [List.range_succ, List.map_append, List.reverse_append]
        simp
      rw [hdelay, hsleeps]
      have hfail2 : ∀ k, k < n → isCaughtErr (f (j + 1 + k)) = true := by
        intro k hk
        have h2 : j + 1 + k = j + (k + 1) := by omega
        rw [h2]
        exact hfail (k + 1) (by omega)
      have hok2 : f (j + 1 + n) = .ok v := by
        have h2 : j + 1 + n = j + (n + 1) := by omega
        rw [h2]
        exact hok
      have h := ih (j + 1) hfail2 hok2
      have h3 : j + 1 + n = j + (n + 1) := by omega
      rw [h3] at h
      exact h

/-- Claim C6: an operation that fails with a caught (transient) error on
each of its first `N` invocations and then succeeds is returned by
`retry_s3_call` as the success value, and the sleeps performed are, in
order, the first `N` terms of the capped backoff sequence
`0, 10, 20, ..., min (10 k) 60`; in particular the total sleep time is the
sum of those `N` capped delays. -/
theorem c6_transient_backoff {α : Type} (f : Nat → Except S3Err α) (N : Nat) (v : α)
    (hfail : ∀ k, k < N → isCaughtErr (f k) = true) (hok : f N = .ok v) :
    retryS3 f (N + 1) =
      some ⟨.ok v, (List.range N).map (fun k => min (10 * k) 60), N + 1⟩ := by
  have h := retry_succeeds_after f v N 0
    (by intro k hk; simpa using hfail k hk) (by simpa using hok)
  simpa [retryS3] using h

/-- Witness for C6: two read-timeout failures then success returns the
success value after sleeping 0 then 10 time-units, having called the
operation three times. -/
theorem c6_witness :
    (∀ k, k < 2 → isCaughtErr (twoTimeoutsThenOk k) = true)
    ∧ retryS3 twoTimeoutsThenOk 3 = some ⟨.ok 7, [0, 10], 3⟩ := by
  refine ⟨by decide, ?_⟩
  have h := c6_transient_backoff twoTimeoutsThenOk 2 7 (by decide) rfl
  rw [h]
  decide

/-- Claim C1 counterexample: a permission-denied remote error
(`ClientError` with code 403) raised on the first attempt does NOT
propagate: the wrapper sleeps once (0 time-units) and retries, returning
the second attempt's success with two calls made, because `ClientError`
is in the caught tuple of `retry_s3_call`. -/
theorem c1_counterexample :
    deniedThenOk 0 = .error (.clientError "403")
    ∧ isCaught (.clientError "403") = true
    ∧ retryS3 deniedThenOk 2 = some ⟨.ok 42, [0], 2⟩ := by
  exact ⟨rfl, rfl, rfl⟩

/-- Claim C1 (amended): an error outside the caught tuple
`(ClientError, EndpointConnectionError, ConnectionClosedError,
ReadTimeoutError)` propagates to the caller immediately, with no retry and
no sleep; every error inside that tuple — which includes not-found and
permission-denied errors, since they arrive as `ClientError` — is caught
and retried, so a run that first fails with such an error makes at least
two calls. -/
theorem c1_uncaught_propagates {α : Type} (f : Nat → Except S3Err α) (e : S3Err)
    (h0 : f 0 = .error e) :
    (isCaught e = false → ∀ fuel, retryS3 f (fuel + 1) = some ⟨.error e, [], 1⟩)
    ∧ (isCaught e = true → ∀ fuel r, retryS3 f fuel = some r → 2 ≤ r.calls) := by
  constructor
  · intro hnc fuel
    rw [retryS3, retry_s3_call, h0]
    simp [hnc]
  · intro hc fuel r h
    match fuel with
    | 0 => simp [retryS3, retry_s3_call] at h
    | n + 1 =>
      rw [retryS3, retry_s3_call, h0] at h
      simp only [hc, if_true] at h
      exact retry_calls_ge f n 1 _ _ r h

/-- Witness for C1 (amended): an uncaught error propagates with no sleep
and one call; a caught read-timeout leads to at least two calls. -/
theorem c1_witness :
    retryS3 alwaysOther 1 = some ⟨.error (.otherError "boom"), [], 1⟩
    ∧ 2 ≤ (⟨.ok 1, [0], 2⟩ : RetryTrace Nat).calls :=
  ⟨(c1_uncaught_propagates alwaysOther (.otherError "boom") rfl).1 rfl 0,
   (c1_uncaught_propagates timeoutThenOk .readTimeoutError rfl).2 rfl 3 ⟨.ok 1, [0], 2⟩ rfl⟩

/-- Exactly one `copy_with_retry` call is made per `compress_image_quality`
invocation, in the in-loop branch or in the best-effort fallthrough. -/
theorem compressGo_copyCalls (enc : Int → Nat) (maxKb : Int) (copyOk : Bool) :
    ∀ fuel q acc, (compressGo enc maxKb copyOk fuel q acc).copyCalls = 1 := by
  intro fuel
  induction fuel with
  | zero => intro q acc; rfl
  | succ n ih =>
    intro q acc
    rw [compressGo]
    by_cases hq : 20 < q
    · rw [if_pos hq]
      by_cases hs : (enc q : Int) ≤ maxKb * 1024
      · rw [if_pos hs]
      · rw [if_neg hs]
        exact ih _ _
    · rw [if_neg hq]

/-- The attempt trace grows by at most one encode per unit of fuel. -/
theorem compressGo_length (enc : Int → Nat) (maxKb : Int) (copyOk : Bool) :
    ∀ fuel q acc,
      (compressGo enc maxKb copyOk fuel q acc).attempts.length ≤ acc.length + fuel := by
  intro fuel
  induction fuel with
  | zero => intro q acc; simp [compressGo]
  | succ n ih =>
    intro q acc
    rw [compressGo]
    by_cases hq : 20 < q
    · rw [if_pos hq]
      by_cases hs : (enc q : Int) ≤ maxKb * 1024
      · rw [if_pos hs]
        show (acc ++ [q]).length ≤ acc.length + (n + 1)
        rw [List.length_append]
        simp only [List.length_singleton]
        omega
      · rw [if_neg hs]
        have h2 := ih (if (enc q : Int) > (maxKb + 300) * 1024 then q - 5 else q - 1) (acc ++ [q])
        rw [List.length_append] at h2
        simp only [List.length_singleton] at h2
        omega
    · rw [if_neg hq]
      show acc.length ≤ acc.length + (n + 1)
      omega

/-- Every attempted quality is strictly above the floor 20, provided the
accumulated history already is. -/
theorem compressGo_gt20 (enc : Int → Nat) (maxKb : Int) (copyOk : Bool) :
    ∀ fuel q acc, (∀ x ∈ acc, 20 < x) →
      ∀ x ∈ (compressGo enc maxKb copyOk fuel q acc).attempts, 20 < x := by
  intro fuel
  induction fuel with
  | zero => intro q acc hacc; exact hacc
  | succ n ih =>
    intro q acc hacc
    rw [compressGo]
    by_cases hq : 20 < q
    · rw [if_pos hq]
      by_cases hs : (enc q : Int) ≤ maxKb * 1024
      · rw [if_pos hs]
        intro x hx
        simp only [List.mem_append, List.mem_singleton] at hx
        rcases hx with hx | hx
        · exact hacc x hx
        · omega
      · rw [if_neg hs]
        refine ih _ _ ?_
        intro x hx
        simp only [List.mem_append, List.mem_singleton] at hx
        rcases hx with hx | hx
        · exact hacc x hx
        · omega
    · rw [if_neg hq]
      exact hacc

/-- Consecutive attempted qualities are related by the coarse-then-fine
decrement step, provided the accumulated history already is and the next
quality continues it. -/
theorem compressGo_chain (enc : Int → Nat) (maxKb : Int) (copyOk : Bool) :
    ∀ fuel q acc,
      List.Chain'
        (fun a b => b = if (enc a : Int) > (maxKb + 300) * 1024 then a - 5 else a - 1) acc →
      (∀ x, acc.getLast? = some x →
        q = if (enc x : Int) > (maxKb + 300) * 1024 then x - 5 else x - 1) →
      List.Chain'
        (fun a b => b = if (enc a : Int) > (maxKb + 300) * 1024 then a - 5 else a - 1)
        (compressGo enc maxKb copyOk fuel q acc).attempts := by
  intro fuel
  induction fuel with
  | zero => intro q acc hacc _; exact hacc
  | succ n ih =>
    intro q acc hacc hlink
    rw [compressGo]
    by_cases hq : 20 < q
    · rw [if_pos hq]
      have happ : List.Chain'
          (fun a b => b = if (enc a : Int) > (maxKb + 300) * 1024 then a - 5 else a - 1)
          (acc ++ [q]) := by
        rw [List.chain'_append]
        refine ⟨hacc, List.chain'_singleton q, ?_⟩
        intro x hx y hy
        simp only [List.head?_cons, Option.mem_def, Option.some.injEq] at hy
        subst hy
        exact (hlink x (Option.mem_def.mp hx)).symm ▸ rfl
      by_cases hs : (enc q : Int) ≤ maxKb * 1024
      · rw [if_pos hs]
        exact happ
      · rw [if_neg hs]
        refine ih _ _ happ ?_
        intro x hx
        rw [List.getLast?_concat] at hx
        injection hx with hx
        subst hx
        rfl
    · rw [if_neg hq]
      exact hacc

/-- When the loop exits through the quality floor, the destination holds
the last attempted quality exactly when the best-effort copy succeeds
(and is absent when it fails, or when nothing was ever encoded). -/
theorem compressGo_floor (enc : Int → Nat) (maxKb : Int) (copyOk : Bool) :
    ∀ fuel q acc, (compressGo enc maxKb copyOk fuel q acc).returnedEarly = false →
      (compressGo enc maxKb copyOk fuel q acc).dest =
        if copyOk then (compressGo enc maxKb copyOk fuel q acc).attempts.getLast?
        else none := by
  intro fuel
  induction fuel with
  | zero => intro q acc _; rfl
  | succ n ih =>
    intro q acc hret
    rw [compressGo] at hret ⊢
    by_cases hq : 20 < q
    · rw [if_pos hq] at hret ⊢
      by_cases hs : (enc q : Int) ≤ maxKb * 1024
      · rw [if_pos hs] at hret
        simp at hret
      · rw [if_neg hs] at hret ⊢
        exact ih _ _ hret
    · rw [if_neg hq] at hret ⊢

/-- When the loop returns from inside (size budget met), the final
attempted quality met the budget, is above the floor, closes the attempt
trace, and is what the destination holds when the write succeeds. -/
theorem compressGo_early (enc : Int → Nat) (maxKb : Int) (copyOk : Bool) :
    ∀ fuel q acc, (compressGo enc maxKb copyOk fuel q acc).returnedEarly = true →
      ∃ qf, (compressGo enc maxKb copyOk fuel q acc).attempts.getLast? = some qf
        ∧ (enc qf : Int) ≤ maxKb * 1024 ∧ 20 < qf
        ∧ (compressGo enc maxKb copyOk fuel q acc).dest =
            (if copyOk then some qf else none) := by
  intro fuel
  induction fuel with
  | zero => intro q acc hret; simp [compressGo] at hret
  | succ n ih =>
    intro q acc hret
    rw [compressGo] at hret ⊢
    by_cases hq : 20 < q
    · rw [if_pos hq] at hret ⊢
      by_cases hs : (enc q : Int) ≤ maxKb * 1024
      · rw [if_pos hs] at hret ⊢
        exact ⟨q, List.getLast?_concat _, hs, hq, rfl⟩
      · rw [if_neg hs] at hret ⊢
        exact ih _ _ hret
    · rw [if_neg hq] at hret
      simp at hret

/-- Fuel stability: any fuel at least `(q - 20).toNat` yields the same run
as the canonical fuel, so the loop genuinely terminates within
`start_quality - 20` iterations. -/
theorem compressGo_fuel (enc : Int → Nat) (maxKb : Int) (copyOk : Bool) :
    ∀ f1 f2 q acc, (q - 20).toNat ≤ f1 → (q - 20).toNat ≤ f2 →
      compressGo enc maxKb copyOk f1 q acc = compressGo enc maxKb copyOk f2 q acc := by
  intro f1
  induction f1 with
  | zero =>
    intro f2 q acc h1 h2
    have hq : ¬ 20 < q := by omega
    match f2 with
    | 0 => rfl
    | m + 1 =>
      rw [compressGo, compressGo, if_neg hq]
  | succ n ih =>
    intro f2 q acc h1 h2
    by_cases hq : 20 < q
    · match f2 with
      | 0 => omega
      | m + 1 =>
        rw [compressGo, compressGo, if_pos hq, if_pos hq]
        by_cases hs : (enc q : Int) ≤ maxKb * 1024
        · rw [if_pos hs, if_pos hs]
        · rw [if_neg hs, if_neg hs]
          by_cases hov : (enc q : Int) > (maxKb + 300) * 1024
          · rw [if_pos hov]
            exact ih m (q - 5) (acc ++ [q]) (by omega) (by omega)
          · rw [if_neg hov]
            exact ih m (q - 1) (acc ++ [q]) (by omega) (by omega)
    · match f2 with
      | 0 => rw [compressGo, compressGo, if_neg hq]
      | m + 1 => rw [compressGo, compressGo, if_neg hq, if_neg hq]

/-- Claim C3 counterexample: with an encoder producing 500 binary KB at
every quality, budget 200 KB and start quality 23, no attempted quality
meets the budget, the loop falls through the quality floor — and when the
bounded-retry destination write fails permanently the destination is
absent (`dest = none`), contradicting "the function still writes a
destination file (the destination is not absent)". -/
theorem c3_counterexample :
    compress_image_quality enc500 200 false 23 =
      { attempts := [23, 22, 21], dest := none, copyCalls := 1, returnedEarly := false }
    ∧ (∀ x ∈ [(23 : Int), 22, 21], ¬ ((enc500 x : Int) ≤ 200 * 1024)) := by
  exact ⟨by decide, by decide⟩

/-- Claim C3 (amended): when `compress_image_quality` exits through the
quality floor (no attempted quality met the budget), it performs exactly
one best-effort bounded-retry write of the last encoded attempt to the
destination; if that write succeeds the destination holds the last
encoded attempt (which may exceed the budget), and if it fails
permanently — in particular also when nothing was ever encoded because
`start_quality ≤ 20` — the destination remains absent. -/
theorem c3_best_effort (enc : Int → Nat) (maxKb : Int) (copyOk : Bool)
    (start_quality : Int)
    (h : (compress_image_quality enc maxKb copyOk start_quality).returnedEarly = false) :
    (compress_image_quality enc maxKb copyOk start_quality).copyCalls = 1
    ∧ (copyOk = true →
        (compress_image_quality enc maxKb copyOk start_quality).dest =
          (compress_image_quality enc maxKb copyOk start_quality).attempts.getLast?)
    ∧ (copyOk = false →
        (compress_image_quality enc maxKb copyOk start_quality).dest = none) := by
  refine ⟨compressGo_copyCalls enc maxKb copyOk _ _ _, ?_, ?_⟩
  · intro hc
    have h2 := compressGo_floor enc maxKb copyOk _ _ _ h
    rw [compress_image_quality, h2, hc]
    simp
  · intro hc
    have h2 := compressGo_floor enc maxKb copyOk _ _ _ h
    rw [compress_image_quality, h2, hc]
    simp

/-- Witness for C3 (amended): at the counterexample's encoder but with a
succeeding destination write, the floor exit leaves the destination
holding the last attempt, quality 21. -/
theorem c3_witness :
    (compress_image_quality enc500 200 true 23).returnedEarly = false
    ∧ (compress_image_quality enc500 200 true 23).dest = some 21 := by
  have h := (c3_best_effort enc500 200 true 23 (by decide)).2.1 rfl
  exact ⟨by decide, by rw [h]; decide⟩

/-- Claim C4: over one run of `compress_image_quality`, the attempted
quality strictly decreases from one loop iteration to the next, every
encode pass happens at a quality strictly greater than 20, the number of
encode passes is at most `(start_quality - 20).toNat` (zero when
`start_quality ≤ 20`), and that fuel bound genuinely bounds the loop: any
larger fuel produces the identical run. -/
theorem c4_quality_search (enc : Int → Nat) (maxKb : Int) (copyOk : Bool)
    (start_quality : Int) :
    List.Chain' (fun a b => b < a)
      (compress_image_quality enc maxKb copyOk start_quality).attempts
    ∧ (∀ x ∈ (compress_image_quality enc maxKb copyOk start_quality).attempts, 20 < x)
    ∧ (compress_image_quality enc maxKb copyOk start_quality).attempts.length ≤
        (start_quality - 20).toNat
    ∧ (∀ extra,
        compressGo enc maxKb copyOk ((start_quality - 20).toNat + extra) start_quality [] =
          compress_image_quality enc maxKb copyOk start_quality) := by
  refine ⟨?_, ?_, ?_, ?_⟩
  · have h := compressGo_chain enc maxKb copyOk (start_quality - 20).toNat start_quality []
      List.chain'_nil (by intro x hx; simp at hx)
    refine List.Chain'.imp ?_ h
    intro a b hab
    rw [hab]
    by_cases hov : (enc a : Int) > (maxKb + 300) * 1024
    · rw [if_pos hov]; omega
    · rw [if_neg hov]; omega
  · exact compressGo_gt20 enc maxKb copyOk _ _ [] (by intro x hx; simp at hx)
  · have h := compressGo_length enc maxKb copyOk (start_quality - 20).toNat start_quality []
    simpa using h
  · intro extra
    exact compressGo_fuel enc maxKb copyOk _ _ _ [] (by omega) (by omega)

/-- Witness for C4: at the 500 KB encoder with budget 200 and start
quality 23 the attempts are 23, 22, 21 — strictly decreasing, all above
20, and at most three of them. -/
theorem c4_witness :
    (compress_image_quality enc500 200 true 23).attempts = [23, 22, 21]
    ∧ List.Chain' (fun a b => b < a) (compress_image_quality enc500 200 true 23).attempts
    ∧ (compress_image_quality enc500 200 true 23).attempts.length ≤ ((23 : Int) - 20).toNat :=
  ⟨by decide, (c4_quality_search enc500 200 true 23).1,
    (c4_quality_search enc500 200 true 23).2.2.1⟩

/-- Claim C5: consecutive attempted qualities drop by 5 exactly when the
encoded size overshoots the budget by more than 300 KB and by 1
otherwise; if the starting quality already meets the budget the run
consists of exactly that one encode pass, whose output is what gets
written; and whenever the loop returns from inside, the final quality was
encoded exactly once and the destination (on write success) holds that
pass's output. -/
theorem c5_decrement_policy (enc : Int → Nat) (maxKb : Int) (copyOk : Bool)
    (start_quality : Int) :
    List.Chain'
      (fun a b => b = if (enc a : Int) > (maxKb + 300) * 1024 then a - 5 else a - 1)
      (compress_image_quality enc maxKb copyOk start_quality).attempts
    ∧ (20 < start_quality → (enc start_quality : Int) ≤ maxKb * 1024 →
        (compress_image_quality enc maxKb copyOk start_quality).attempts = [start_quality]
        ∧ (compress_image_quality enc maxKb copyOk start_quality).returnedEarly = true
        ∧ (copyOk = true →
            (compress_image_quality enc maxKb copyOk start_quality).dest =
              some start_quality))
    ∧ ((compress_image_quality enc maxKb copyOk start_quality).returnedEarly = true →
        ∀ qf,
          (compress_image_quality enc maxKb copyOk start_quality).attempts.getLast? =
            some qf →
          (compress_image_quality enc maxKb copyOk start_quality).attempts.count qf = 1
          ∧ (copyOk = true →
              (compress_image_quality enc maxKb copyOk start_quality).dest = some qf)) := by
  refine ⟨?_, ?_, ?_⟩
  · exact compressGo_chain enc maxKb copyOk _ _ [] List.chain'_nil (by intro x hx; simp at hx)
  · intro hq hs
    obtain ⟨m, hm⟩ : ∃ m, (start_quality - 20).toNat = m + 1 :=
      ⟨(start_quality - 20).toNat - 1, by omega⟩
    rw [compress_image_quality, hm, compressGo, if_pos hq, if_pos hs]
    refine ⟨rfl, rfl, ?_⟩
    intro hc
    rw [hc]
    simp
  · intro hret qf hlast
    have hnodup : (compress_image_quality enc maxKb copyOk start_quality).attempts.Nodup := by
      have hch := compressGo_chain enc maxKb copyOk (start_quality - 20).toNat start_quality []
        List.chain'_nil (by intro x hx; simp at hx)
      have hlt : List.Chain' (fun a b => b < a)
          (compress_image_quality enc maxKb copyOk start_quality).attempts := by
        refine List.Chain'.imp ?_ hch
        intro a b hab
        rw [hab]
        by_cases hov : (enc a : Int) > (maxKb + 300) * 1024
        · rw [if_pos hov]; omega
        · rw [if_neg hov]; omega
      rw [List.chain'_iff_pairwise] at hlt
      exact hlt.imp (fun hab => ne_of_gt hab)
    have hmem : qf ∈ (compress_image_quality enc maxKb copyOk start_quality).attempts :=
      List.mem_of_mem_getLast? (by rw [Option.mem_def]; exact hlast)
    refine ⟨List.count_eq_one_of_mem hnodup hmem, ?_⟩
    intro hc
    obtain ⟨qe, hqe1, _, _, hqe4⟩ := compressGo_early enc maxKb copyOk _ _ _ hret
    rw [compress_image_quality] at hlast
    rw [hlast] at hqe1
    injection hqe1 with hqe1
    rw [compress_image_quality, hqe4, hc, if_pos rfl, hqe1]

/-- Witness for C5: with a 100 KB encoder and a 200 KB budget, starting
quality 80 meets the budget at once: one encode pass, and the destination
holds its output. -/
theorem c5_witness :
    (compress_image_quality enc100 200 true 80).attempts = [80]
    ∧ (compress_image_quality enc100 200 true 80).dest = some 80 := by
  have h := (c5_decrement_policy enc100 200 true 80).2.1 (by decide) (by decide)
  exact ⟨h.1, h.2.2 rfl⟩

/-- An always-failing write loop with positive delay returns a permanent
failure whose elapsed time lies in `[maxW, maxW + delay)`, making at least
the attempts from the given counter on. -/
theorem copy_always_fail (delay maxW : Nat) (hd : 0 < delay) :
    ∀ m t attempt, maxW - t ≤ m → t < maxW + delay →
      ∃ fuel e n, copy_with_retry alwaysFailOp delay maxW fuel t attempt =
          some (false, e, n)
        ∧ maxW ≤ e ∧ e < maxW + delay ∧ attempt ≤ n := by
  intro m
  induction m with
  | zero =>
    intro t a hm ht
    refine ⟨1, t, a, ?_, by omega, ht, Nat.le_refl a⟩
    rw [copy_with_retry]
    simp [alwaysFailOp]
    omega
  | succ k ih =>
    intro t a hm ht
    by_cases hstop : maxW ≤ t
    · refine ⟨1, t, a, ?_, hstop, ht, Nat.le_refl a⟩
      rw [copy_with_retry]
      simp [alwaysFailOp, hstop]
    · obtain ⟨fuel, e, n, hgo, he1, he2, hn⟩ := ih (t + delay) (a + 1) (by omega) (by omega)
      refine ⟨fuel + 1, e, n, ?_, he1, he2, by omega⟩
      rw [copy_with_retry]
      simp only [alwaysFailOp, Bool.false_eq_true, if_false, if_neg hstop]
      exact hgo

/-- The two bounded-retry local writers share one loop, so their runs
coincide for every operation, schedule, fuel, clock and counter. -/
theorem save_eq_copy (op : Nat → Bool) (delay maxW : Nat) :
    ∀ fuel t a, save_image_with_retry op delay maxW fuel t a =
      copy_with_retry op delay maxW fuel t a := by
  intro fuel
  induction fuel with
  | zero => intro t a; rfl
  | succ n ih =>
    intro t a
    rw [save_image_with_retry, copy_with_retry]
    by_cases hop : op a
    · rw [if_pos hop, if_pos hop]
    · rw [if_neg hop, if_neg hop]
      by_cases hstop : maxW ≤ t
      · rw [if_pos hstop, if_pos hstop]
      · rw [if_neg hstop, if_neg hstop]
        exact ih _ _

/-- Claim C7: for a destination write that fails on every attempt,
`copy_with_retry` and `save_image_with_retry` each return the failure
value `false` after an elapsed wall-clock time that is at least the
configured ceiling and less than the ceiling plus one delay interval,
having made at least one attempt. -/
theorem c7_local_write_ceiling (delay maxTotalWait : Nat) (hd : 0 < delay) :
    ∃ fuel elapsed n,
      copy_with_retry alwaysFailOp delay maxTotalWait fuel 0 1 =
        some (false, elapsed, n)
      ∧ save_image_with_retry alwaysFailOp delay maxTotalWait fuel 0 1 =
        some (false, elapsed, n)
      ∧ maxTotalWait ≤ elapsed ∧ elapsed < maxTotalWait + delay ∧ 1 ≤ n := by
  obtain ⟨fuel, e, n, h1, h2, h3, h4⟩ :=
    copy_always_fail delay maxTotalWait hd maxTotalWait 0 1 (by omega) (by omega)
  refine ⟨fuel, e, n, h1, ?_, h2, h3, h4⟩
  rw [save_eq_copy]
  exact h1

/-- Witness for C7: at the source defaults, delay 30 and ceiling 300. -/
theorem c7_witness :
    0 < 30 ∧ ∃ fuel elapsed n,
      copy_with_retry alwaysFailOp 30 300 fuel 0 1 = some (false, elapsed, n)
      ∧ save_image_with_retry alwaysFailOp 30 300 fuel 0 1 = some (false, elapsed, n)
      ∧ 300 ≤ elapsed ∧ elapsed < 300 + 30 ∧ 1 ≤ n :=
  ⟨by decide, c7_local_write_ceiling 30 300 (by decide)⟩

/-- Claim C8 counterexample: a transfer failure in which the cleanup's
`os.remove` itself fails with a (swallowed, logged) `OSError` propagates
the error while the partially written scratch file remains in the file
set — a partial artifact observable by the caller, contradicting "no
partial artifact is ever observable". -/
theorem c8_counterexample :
    (storage_download "s3_temp/u1".data "ab12cd34ef.jpg".data "k3x".data
        false false []).1 = .error ()
    ∧ mkstempPath "s3_temp/u1".data "k3x".data "ab12cd34ef.jpg".data ∈
        (storage_download "s3_temp/u1".data "ab12cd34ef.jpg".data "k3x".data
          false false []).2 := by
  exact ⟨rfl, by decide⟩

/-- Claim C8 (amended): on a transfer failure inside `storage_download`,
deletion of the freshly created scratch file is attempted before the
error propagates; when the deletion's `os.remove` succeeds the caller
observes the error with the file system exactly as before the call, but
when `os.remove` fails with a swallowed `OSError` the partial scratch
file remains observable while the error still propagates.  On success the
returned path lies inside the scratch directory, carries the fixed
`s3dl_` part followed by the random part chosen by `mkstemp`, and
preserves the original filename's extension. -/
theorem c8_download_cleanup (tmpFolder rel rnd : List Char) (fs : List (List Char))
    (removeOk : Bool) :
    storage_download tmpFolder rel rnd true removeOk fs =
      (.ok (tmpFolder ++ ['/'] ++ ['s', '3', 'd', 'l', '_'] ++ rnd ++ splitextExtChars rel),
        mkstempPath tmpFolder rnd rel :: fs)
    ∧ (removeOk = true → mkstempPath tmpFolder rnd rel ∉ fs →
        storage_download tmpFolder rel rnd false removeOk fs = (.error (), fs))
    ∧ (removeOk = false →
        storage_download tmpFolder rel rnd false removeOk fs =
          (.error (), mkstempPath tmpFolder rnd rel :: fs)) := by
  refine ⟨rfl, ?_, ?_⟩
  · intro hrm hn
    subst hrm
    show (Except.error (), remove_tempfile true (mkstempPath tmpFolder rnd rel :: fs)
      (mkstempPath tmpFolder rnd rel)) = (Except.error (), fs)
    rw [remove_tempfile, if_pos (List.mem_cons_self _ _), if_pos rfl]
    rw [List.filter_cons_of_neg]
    · rw [List.filter_eq_self.mpr]
      intro a ha
      simp only [decide_eq_true_eq]
      intro heq
      exact hn (heq ▸ ha)
    · simp
  · intro hrm
    subst hrm
    show (Except.error (), remove_tempfile false (mkstempPath tmpFolder rnd rel :: fs)
      (mkstempPath tmpFolder rnd rel)) =
      (Except.error (), mkstempPath tmpFolder rnd rel :: fs)
    rw [remove_tempfile, if_pos (List.mem_cons_self _ _), if_neg Bool.false_ne_true]

/-- Witness for C8 (amended): a failing transfer of `ab12cd34ef.jpg` into
an empty scratch directory, with the cleanup's `os.remove` succeeding,
propagates the error and leaves no file behind. -/
theorem c8_witness :
    storage_download "s3_temp/u1".data "ab12cd34ef.jpg".data "k3x".data false true [] =
      (.error (), []) :=
  (c8_download_cleanup "s3_temp/u1".data "ab12cd34ef.jpg".data "k3x".data [] true).2.1
    rfl (by decide)

/-- A string not beginning with a slash is untouched by `lstrip("/")`. -/
theorem lstrip_no_slash (s rest : List Char) (hne : s ≠ [])
    (hh : s.head? ≠ some '/') :
    lstripSlashC (s ++ rest) = s ++ rest := by
  match s, hne with
  | c :: cs, _ =>
    simp only [List.head?_cons, ne_eq, Option.some.injEq] at hh
    rw [lstripSlashC, List.cons_append, List.dropWhile_cons]
    simp [hh]

/-- `lstrip("/")` consumes a leading slash. -/
theorem lstrip_slash_cons (rest : List Char) :
    lstripSlashC ('/' :: rest) = lstripSlashC rest := by
  rw [lstripSlashC, lstripSlashC, List.dropWhile_cons]
  simp

/-- Claim C9: for a leaf filename of at least four characters, the remote
key probed and downloaded by the batch loop is exactly the namespace,
collection, `originals`, the first-two-character shard, the
next-two-character shard, then the filename, joined by the configured
separator — with the namespace omitted (and the leading slash stripped)
when it is empty.  The shard segments are exactly the first two and next
two characters of the filename, the key is a pure function of its
arguments, and the worked example probes
`botany/originals/ab/12/ab12cd34ef.jpg`. -/
theorem c9_sharded_key (pfx sep collection f : List Char)
    (hf : 4 ≤ f.length) (hpfx : pfx.head? ≠ some '/')
    (hcol : collection.head? ≠ some '/') :
    (pfx ≠ [] →
      full_key_for pfx (rel_key_for sep collection f) =
        pfx ++ ['/'] ++ collection ++ sep ++ originalsSeg ++ sep ++
          f.take 2 ++ sep ++ (f.drop 2).take 2 ++ sep ++ f)
    ∧ (pfx = [] → collection ≠ [] →
      full_key_for pfx (rel_key_for sep collection f) =
        collection ++ sep ++ originalsSeg ++ sep ++
          f.take 2 ++ sep ++ (f.drop 2).take 2 ++ sep ++ f)
    ∧ pySliceC f 0 2 = f.take 2
    ∧ pySliceC f 2 4 = (f.drop 2).take 2
    ∧ (f.take 2).length = 2
    ∧ ((f.drop 2).take 2).length = 2
    ∧ full_key_for [] (rel_key_for ['/'] "botany".data "ab12cd34ef.jpg".data) =
        "botany/originals/ab/12/ab12cd34ef.jpg".data := by
  have hs1 : pySliceC f 0 2 = f.take 2 := by
    simp [pySliceC]
  have hs2 : pySliceC f 2 4 = (f.drop 2).take 2 := by
    simp [pySliceC, List.drop_take]
  refine ⟨?_, ?_, hs1, hs2, ?_, ?_, by decide⟩
  · intro hne
    rw [full_key_for, List.append_assoc, lstrip_no_slash pfx _ hne hpfx]
    rw [← List.append_assoc, rel_key_for, hs1, hs2]
    simp [List.append_assoc]
  · intro hpe hcne
    have h0 : full_key_for pfx (rel_key_for sep collection f) =
        lstripSlashC ('/' :: rel_key_for sep collection f) := by
      rw [full_key_for, hpe]
      rfl
    have hsplit : rel_key_for sep collection f =
        collection ++ (sep ++ (originalsSeg ++ (sep ++ (pySliceC f 0 2 ++
          (sep ++ (pySliceC f 2 4 ++ (sep ++ f))))))) := by
      simp [rel_key_for, List.append_assoc]
    rw [h0, lstrip_slash_cons, hsplit, lstrip_no_slash collection _ hcne hcol]
    rw [hs1, hs2]
    simp [List.append_assoc]
  · rw [List.length_take]
    omega
  · rw [List.length_take, List.length_drop]
    omega

/-- Witness for C9: a non-empty namespace `p1` and collection `botany`
probe `p1/botany/originals/ab/12/ab12cd34ef.jpg`. -/
theorem c9_witness :
    full_key_for "p1".data (rel_key_for ['/'] "botany".data "ab12cd34ef.jpg".data) =
      "p1/botany/originals/ab/12/ab12cd34ef.jpg".data := by
  have h := (c9_sharded_key "p1".data ['/'] "botany".data "ab12cd34ef.jpg".data
    (by decide) (by decide) (by decide)).1 (by decide)
  rw [h]
  decide

/-- Claim C10: with no remote endpoint configured `storage_exists` returns
`false` for every probe outcome without raising, and a batch in which no
key is reported present returns the empty list: every key is skipped and
no error surfaces. -/
theorem c10_no_endpoint (cfg : BatchCfg) (env : List Char → ItemEnv)
    (rel_paths : List (List Char))
    (henv : ∀ r, (env r).existsRemote = false) :
    (∀ h, storage_exists false h = Except.ok false)
    ∧ download_image_list cfg env rel_paths = [] := by
  constructor
  · intro h
    rfl
  · rw [download_image_list, List.filterMap_eq_nil_iff]
    intro rel _
    rw [processOne, if_pos (henv rel)]

/-- Witness for C10: a one-key batch against a disabled remote store
returns the empty list. -/
theorem c10_witness :
    download_image_list ⟨"out".data, none, none⟩
      (fun _ => ⟨false, true, false, true, true⟩) ["ab12cd34ef.jpg".data] = [] :=
  (c10_no_endpoint ⟨"out".data, none, none⟩
    (fun _ => ⟨false, true, false, true, true⟩) ["ab12cd34ef.jpg".data]
    (fun _ => rfl)).2

/-- Claim C2, evaluated at the failing input: a one-key batch in
resize-only mode (`max_size_kb = None`, `resize_to` set) whose destination
write fails on every attempt still returns the output path in the result
list — the resize/compress branch of `download_image_list` appends the
path regardless of write success, so the returned list is not restricted
to keys whose final write succeeded. -/
theorem c2_failed_write_still_listed :
    download_image_list ⟨"out".data, none, some (100, 100)⟩
      (fun _ => ⟨true, true, false, true, false⟩) ["ab12cd34ef.jpg".data] =
      ["out/ab12cd34ef.jpg".data]
    ∧ (ItemEnv.mk true true false true false).writeOk = false := by
  exact ⟨by decide, rfl⟩

end ImgGetter
